import Mathlib

/-!
Shallow embedding of `src/src/engine/parser.rs` (Teradad41/regexp): a
single-pass, stack-based regular-expression parser producing an AST or a
classified error.  Rust `Vec` accumulators are modelled as Lean `List`s in
the same element order (Vec `push` appends at the end, Vec `pop` removes the
last element); the context stack, used only through `push`/`pop`, is
modelled with the list head as the stack top.
-/

namespace Regexp

/-- The AST type of `parser.rs` (`enum AST`). -/
inductive AST where
  | Char : Char → AST
  | Plus : AST → AST
  | Star : AST → AST
  | Question : AST → AST
  | Or : AST → AST → AST
  | Seq : List AST → AST

/-- The quantifier selector (`enum PSQ`). -/
inductive PSQ where
  | Plus
  | Star
  | Question

/-- The error type of `parser.rs` (`enum ParserError`). -/
inductive ParserError where
  | InvalidEscape : Nat → Char → ParserError
  | InvalidRightParen : Nat → ParserError
  | NoPrev : Nat → ParserError
  | NoRightParen : ParserError
  | Empty : ParserError
deriving DecidableEq

/-- `parse_escape` of `parser.rs`: a backslash-escaped character is legal
exactly when it is one of the seven syntax characters. -/
def parse_escape (pos : Nat) (c : Char) : Except ParserError AST :=
  if c = '\\' ∨ c = '(' ∨ c = ')' ∨ c = '|' ∨ c = '+' ∨ c = '*' ∨ c = '?' then
    Except.ok (AST.Char c)
  else
    Except.error (ParserError.InvalidEscape pos c)

/-- `parse_plus_star_question` of `parser.rs`: wrap the last element of the
concatenation accumulator in the quantifier node, or fail with `NoPrev`. -/
def parse_plus_star_question (seq : List AST) (ast_type : PSQ) (pos : Nat) :
    Except ParserError (List AST) :=
  match seq.getLast? with
  | some prev =>
      let ast := match ast_type with
        | PSQ.Plus => AST.Plus prev
        | PSQ.Star => AST.Star prev
        | PSQ.Question => AST.Question prev
      Except.ok (seq.dropLast ++ [ast])
  | none => Except.error (ParserError.NoPrev pos)

/-- `fold_or` of `parser.rs`: pop the last alternative, reverse the rest and
fold it into a right-nested chain of binary `Or` nodes; zero alternatives
give `none`, a single one is returned unwrapped. -/
def fold_or (seq_or : List AST) : Option AST :=
  if seq_or.length > 1 then
    match seq_or.getLast? with
    | some last =>
        some ((seq_or.dropLast.reverse).foldl (fun ast s => AST.Or s ast) last)
    | none => none
  else
    seq_or.getLast?

/-- The two-valued scan mode (`enum ParseState` local to `parse`). -/
inductive ParseState where
  | Char
  | Escape
deriving DecidableEq

/-- The mutable local state of `parse`: the concatenation accumulator `seq`,
the alternatives accumulator `seq_or`, the context `stack` and the scan
`state`. -/
structure ParseCtx where
  seq : List AST
  seq_or : List AST
  stack : List (List AST × List AST)
  state : ParseState

/-- One iteration of the character loop of `parse` in `parser.rs`:
dispatch on the scan state and the character `c` at offset `i`. -/
def parseStep (ctx : ParseCtx) (i : Nat) (c : Char) : Except ParserError ParseCtx :=
  match ctx.state with
  | ParseState.Char =>
    match c with
    | '+' =>
      match parse_plus_star_question ctx.seq PSQ.Plus i with
      | Except.ok s => Except.ok { ctx with seq := s }
      | Except.error e => Except.error e
    | '*' =>
      match parse_plus_star_question ctx.seq PSQ.Star i with
      | Except.ok s => Except.ok { ctx with seq := s }
      | Except.error e => Except.error e
    | '?' =>
      match parse_plus_star_question ctx.seq PSQ.Question i with
      | Except.ok s => Except.ok { ctx with seq := s }
      | Except.error e => Except.error e
    | '(' =>
      Except.ok { seq := [], seq_or := [],
                  stack := (ctx.seq, ctx.seq_or) :: ctx.stack,
                  state := ParseState.Char }
    | ')' =>
      match ctx.stack with
      | (prev, prev_or) :: rest =>
          let seq_or :=
            if ctx.seq.isEmpty then ctx.seq_or else ctx.seq_or ++ [AST.Seq ctx.seq]
          let prev :=
            match fold_or seq_or with
            | some ast => prev ++ [ast]
            | none => prev
          Except.ok { seq := prev, seq_or := prev_or, stack := rest,
                      state := ParseState.Char }
      | [] => Except.error (ParserError.InvalidRightParen i)
    | '|' =>
      if ctx.seq.isEmpty then
        Except.error (ParserError.NoPrev i)
      else
        Except.ok { ctx with seq := [], seq_or := ctx.seq_or ++ [AST.Seq ctx.seq] }
    | '\\' =>
      Except.ok { ctx with state := ParseState.Escape }
    | _ =>
      Except.ok { ctx with seq := ctx.seq ++ [AST.Char c] }
  | ParseState.Escape =>
      match parse_escape i c with
      | Except.ok ast =>
          Except.ok { ctx with seq := ctx.seq ++ [ast], state := ParseState.Char }
      | Except.error e => Except.error e

/-- The character loop of `parse`, threading the offset counter `i`. -/
def parseLoop (ctx : ParseCtx) (i : Nat) : List Char → Except ParserError ParseCtx
  | [] => Except.ok ctx
  | c :: cs =>
      match parseStep ctx i c with
      | Except.ok next => parseLoop next (i + 1) cs
      | Except.error e => Except.error e

/-- The end-of-input section of `parse`: reject unclosed groups, push the
final accumulator, fold the alternatives, and reject an empty result. -/
def parseFinish (ctx : ParseCtx) : Except ParserError AST :=
  if ¬ ctx.stack.isEmpty then
    Except.error ParserError.NoRightParen
  else
    let seq_or :=
      if ctx.seq.isEmpty then ctx.seq_or else ctx.seq_or ++ [AST.Seq ctx.seq]
    match fold_or seq_or with
    | some ast => Except.ok ast
    | none => Except.error ParserError.Empty

/-- `parse` of `parser.rs`, on an explicit character list. -/
def parseChars (cs : List Char) : Except ParserError AST :=
  match parseLoop ⟨[], [], [], ParseState.Char⟩ 0 cs with
  | Except.ok ctx => parseFinish ctx
  | Except.error e => Except.error e

/-- `parse` of `parser.rs`: iterate over the characters of `expr` with their
0-based character offsets, then finish. -/
def parse (expr : String) : Except ParserError AST :=
  parseChars expr.data

/-- The seven syntax characters: exactly the characters that `parse` does
not treat as literals in `Normal` mode. -/
def isSyntaxChar (c : Char) : Bool :=
  c = '\\' || c = '(' || c = ')' || c = '|' || c = '+' || c = '*' || c = '?'

mutual

/-- The characters of an AST in left-to-right order (used to state the
round-trip property for literal-only patterns). -/
def flattenChars : AST → List Char
  | AST.Char c => [c]
  | AST.Plus a => flattenChars a
  | AST.Star a => flattenChars a
  | AST.Question a => flattenChars a
  | AST.Or a b => flattenChars a ++ flattenChars b
  | AST.Seq as => flattenList as

/-- Characters of a list of ASTs, in order. -/
def flattenList : List AST → List Char
  | [] => []
  | a :: as => flattenChars a ++ flattenList as

end

mutual

/-- A tree is well formed when it contains no `Seq` node with an empty
child list (an `Or` node is binary by the very shape of the `AST` type). -/
def noEmptySeq : AST → Bool
  | AST.Char _ => true
  | AST.Plus a => noEmptySeq a
  | AST.Star a => noEmptySeq a
  | AST.Question a => noEmptySeq a
  | AST.Or a b => noEmptySeq a && noEmptySeq b
  | AST.Seq as => !as.isEmpty && noEmptySeqList as

/-- `noEmptySeq` on every tree of a list. -/
def noEmptySeqList : List AST → Bool
  | [] => true
  | a :: as => noEmptySeq a && noEmptySeqList as

end

/-- All trees of a list are well formed. -/
def goodList (as : List AST) : Prop := ∀ a ∈ as, noEmptySeq a = true

/-- Both accumulators and every saved stack frame hold well-formed trees. -/
def goodCtx (ctx : ParseCtx) : Prop :=
  goodList ctx.seq ∧ goodList ctx.seq_or ∧
    ∀ p ∈ ctx.stack, goodList p.1 ∧ goodList p.2

/-- `noEmptySeqList` is `noEmptySeq` at every member. -/
theorem noEmptySeqList_iff (as : List AST) :
    noEmptySeqList as = true ↔ ∀ a ∈ as, noEmptySeq a = true := by
  induction as with
  | nil => simp [noEmptySeqList]
  | cons a as ih => simp [noEmptySeqList, ih]

/-- A `Seq` node built from a non-empty list of well-formed trees is well
formed. -/
theorem noEmptySeq_Seq (seq : List AST) (hne : seq ≠ []) (h : goodList seq) :
    noEmptySeq (AST.Seq seq) = true := by
  simp [noEmptySeq, noEmptySeqList_iff, List.isEmpty_iff, hne]
  exact h

/-- The `Or`-building fold of `fold_or` preserves well-formedness. -/
theorem good_foldl_or (l : List AST) (b : AST)
    (hl : ∀ a ∈ l, noEmptySeq a = true) (hb : noEmptySeq b = true) :
    noEmptySeq (l.foldl (fun ast s => AST.Or s ast) b) = true := by
  induction l generalizing b with
  | nil => simpa using hb
  | cons a l ih =>
      simp only [List.foldl_cons]
      apply ih
      · intro x hx
        exact hl x (List.mem_cons_of_mem a hx)
      · simp [noEmptySeq, hb, hl a (List.mem_cons_self a l)]

/-- `fold_or` of a list of well-formed trees yields a well-formed tree. -/
theorem good_fold_or (l : List AST) (hl : goodList l) (ast : AST)
    (h : fold_or l = some ast) : noEmptySeq ast = true := by
  unfold fold_or at h
  split at h
  · split at h
    next last hlast =>
      have hmem : last ∈ l := by
        obtain ⟨hne, rfl⟩ := List.mem_getLast?_eq_getLast (Option.mem_def.mpr hlast)
        exact List.getLast_mem hne
      injection h with h
      subst h
      refine good_foldl_or _ _ (fun a ha => ?_) (hl last hmem)
      exact hl a (List.mem_of_mem_dropLast (List.mem_reverse.mp ha))
    next => exact absurd h (by simp)
  · have hmem : ast ∈ l := by
      obtain ⟨hne, rfl⟩ := List.mem_getLast?_eq_getLast (Option.mem_def.mpr h)
      exact List.getLast_mem hne
    exact hl ast hmem

/-- `parse_escape` only ever produces a `Char` leaf, hence a well-formed
tree. -/
theorem good_parse_escape (i : Nat) (c : Char) (ast : AST)
    (h : parse_escape i c = Except.ok ast) : noEmptySeq ast = true := by
  unfold parse_escape at h
  split at h
  · injection h with h
    subst h
    simp [noEmptySeq]
  · simp at h

/-- Quantifier application preserves well-formedness of the accumulator. -/
theorem good_psq (seq : List AST) (t : PSQ) (i : Nat) (s : List AST)
    (hg : goodList seq) (h : parse_plus_star_question seq t i = Except.ok s) :
    goodList s := by
  unfold parse_plus_star_question at h
  split at h
  next prev hlast =>
    dsimp only at h
    injection h with h
    subst h
    have hprevmem : prev ∈ seq := by
      obtain ⟨hne, rfl⟩ := List.mem_getLast?_eq_getLast (Option.mem_def.mpr hlast)
      exact List.getLast_mem hne
    intro a ha
    rcases List.mem_append.mp ha with h1 | h1
    · exact hg a (List.mem_of_mem_dropLast h1)
    · have hpg := hg prev hprevmem
      simp only [List.mem_singleton] at h1
      subst h1
      cases t <;> simpa [noEmptySeq]
  next => simp at h

/-- The empty list is trivially well formed. -/
theorem goodList_nil : goodList [] := by
  intro a ha
  simp at ha

/-- Well-formedness of lists is preserved by append. -/
theorem goodList_append (l1 l2 : List AST) (h1 : goodList l1) (h2 : goodList l2) :
    goodList (l1 ++ l2) := by
  intro a ha
  rcases List.mem_append.mp ha with h | h
  · exact h1 a h
  · exact h2 a h

/-- A singleton list of one well-formed tree is well formed. -/
theorem goodList_singleton (a : AST) (h : noEmptySeq a = true) : goodList [a] := by
  intro x hx
  simp only [List.mem_singleton] at hx
  subst hx
  exact h

/-- One loop iteration of `parse` preserves the context invariant. -/
theorem good_parseStep (ctx : ParseCtx) (i : Nat) (c : Char) (next : ParseCtx)
    (hg : goodCtx ctx) (h : parseStep ctx i c = Except.ok next) : goodCtx next := by
  obtain ⟨hseq, hor, hstk⟩ := hg
  unfold parseStep at h
  split at h
  · split at h
    · split at h
      next s hs =>
        injection h with h
        subst h
        exact ⟨good_psq _ _ _ _ hseq hs, hor, hstk⟩
      next => simp at h
    · split at h
      next s hs =>
        injection h with h
        subst h
        exact ⟨good_psq _ _ _ _ hseq hs, hor, hstk⟩
      next => simp at h
    · split at h
      next s hs =>
        injection h with h
        subst h
        exact ⟨good_psq _ _ _ _ hseq hs, hor, hstk⟩
      next => simp at h
    · injection h with h
      subst h
      refine ⟨goodList_nil, goodList_nil, ?_⟩
      intro p hp
      rcases List.mem_cons.mp hp with h | h
      · subst h
        exact ⟨hseq, hor⟩
      · exact hstk p h
    · split at h
      next prev prev_or rest hstack =>
        dsimp only at h
        have hframe := hstk (prev, prev_or)
          (by rw [hstack]; exact List.mem_cons_self _ _)
        have hrest : ∀ p ∈ rest, goodList p.1 ∧ goodList p.2 := by
          intro p hp
          exact hstk p (by rw [hstack]; exact List.mem_cons_of_mem _ hp)
        have hor2 : goodList (if ctx.seq.isEmpty then ctx.seq_or
            else ctx.seq_or ++ [AST.Seq ctx.seq]) := by
          split
          · exact hor
          next hne =>
            refine goodList_append _ _ hor (goodList_singleton _ ?_)
            exact noEmptySeq_Seq _ (by simpa [List.isEmpty_iff] using hne) hseq
        split at h
        next ast hfold =>
          injection h with h
          subst h
          exact ⟨goodList_append _ _ hframe.1
            (goodList_singleton _ (good_fold_or _ hor2 _ hfold)), hframe.2, hrest⟩
        next =>
          injection h with h
          subst h
          exact ⟨hframe.1, hframe.2, hrest⟩
      next => simp at h
    · split at h
      · simp at h
      next hne =>
        injection h with h
        subst h
        refine ⟨goodList_nil, ?_, hstk⟩
        refine goodList_append _ _ hor (goodList_singleton _ ?_)
        exact noEmptySeq_Seq _ (by simpa [List.isEmpty_iff] using hne) hseq
    · injection h with h
      subst h
      exact ⟨hseq, hor, hstk⟩
    · injection h with h
      subst h
      exact ⟨goodList_append _ _ hseq
        (goodList_singleton _ (by simp [noEmptySeq])), hor, hstk⟩
  · split at h
    next ast hesc =>
      injection h with h
      subst h
      exact ⟨goodList_append _ _ hseq
        (goodList_singleton _ (good_parse_escape _ _ _ hesc)), hor, hstk⟩
    next => simp at h

/-- The whole character loop preserves the context invariant. -/
theorem good_parseLoop (cs : List Char) : ∀ (ctx : ParseCtx) (i : Nat) (res : ParseCtx),
    goodCtx ctx → parseLoop ctx i cs = Except.ok res → goodCtx res := by
  induction cs with
  | nil =>
      intro ctx i res hg h
      unfold parseLoop at h
      injection h with h
      subst h
      exact hg
  | cons c cs ih =>
      intro ctx i res hg h
      unfold parseLoop at h
      split at h
      next ctx2 hstep => exact ih _ _ _ (good_parseStep _ _ _ _ hg hstep) h
      next => simp at h

/-- The end-of-input fold returns a well-formed tree from a well-formed
context. -/
theorem good_parseFinish (ctx : ParseCtx) (ast : AST)
    (hg : goodCtx ctx) (h : parseFinish ctx = Except.ok ast) : noEmptySeq ast = true := by
  obtain ⟨hseq, hor, _⟩ := hg
  unfold parseFinish at h
  split at h
  · simp at h
  · dsimp only at h
    have hor2 : goodList (if ctx.seq.isEmpty then ctx.seq_or
        else ctx.seq_or ++ [AST.Seq ctx.seq]) := by
      split
      · exact hor
      next hne =>
        refine goodList_append _ _ hor (goodList_singleton _ ?_)
        exact noEmptySeq_Seq _ (by simpa [List.isEmpty_iff] using hne) hseq
    split at h
    next a hfold =>
      injection h with h
      subst h
      exact good_fold_or _ hor2 _ hfold
    next => simp at h

/-- A non-syntax character in `Normal` mode is appended to the accumulator
as a literal `Char` node. -/
theorem parseStep_literal (ctx : ParseCtx) (i : Nat) (c : Char)
    (hs : ctx.state = ParseState.Char) (hc : isSyntaxChar c = false) :
    parseStep ctx i c = Except.ok { ctx with seq := ctx.seq ++ [AST.Char c] } := by
  obtain ⟨⟨⟨⟨⟨⟨c1, c2⟩, c3⟩, c4⟩, c5⟩, c6⟩, c7⟩ :
      (((((¬c = '\\' ∧ ¬c = '(') ∧ ¬c = ')') ∧ ¬c = '|') ∧ ¬c = '+') ∧ ¬c = '*') ∧
        ¬c = '?' := by
    simpa [isSyntaxChar] using hc
  obtain ⟨seq, seq_or, stack, st⟩ := ctx
  dsimp only at hs
  subst hs
  simp [parseStep, c1, c2, c3, c4, c5, c6, c7]

/-- The character loop on a literal-only suffix appends one `Char` node per
character, touching neither the alternatives nor the stack. -/
theorem parseLoop_literal (cs : List Char) (h : ∀ c ∈ cs, isSyntaxChar c = false) :
    ∀ (seq seq_or : List AST) (stack : List (List AST × List AST)) (i : Nat),
    parseLoop ⟨seq, seq_or, stack, ParseState.Char⟩ i cs =
      Except.ok ⟨seq ++ cs.map AST.Char, seq_or, stack, ParseState.Char⟩ := by
  induction cs with
  | nil =>
      intro seq seq_or stack i
      simp [parseLoop]
  | cons c cs ih =>
      intro seq seq_or stack i
      unfold parseLoop
      rw [parseStep_literal _ _ _ rfl (h c (List.mem_cons_self c cs))]
      have ih2 := ih (fun x hx => h x (List.mem_cons_of_mem c hx))
        (seq ++ [AST.Char c]) seq_or stack (i + 1)
      simpa using ih2

/-- Flattening a list of bare `Char` leaves returns the characters. -/
theorem flattenList_map_char (cs : List Char) :
    flattenList (cs.map AST.Char) = cs := by
  induction cs with
  | nil => simp [flattenList]
  | cons c cs ih => simp [flattenList, flattenChars, ih]

/-- Claim C1: for the input "a|b|c", `parse` succeeds and the root is a
right-nested chain of binary `Or` nodes in written order, with the first
alternative as the outermost left operand; in general `fold_or` applied to
an alternatives list `[a, b, c]` produces `Or(a, Or(b, c))`. -/
theorem C1_fold_or_right_nested :
    (∀ a b c : AST, fold_or [a, b, c] = some (AST.Or a (AST.Or b c))) ∧
    parse "a|b|c" = Except.ok (AST.Or (AST.Seq [AST.Char 'a'])
      (AST.Or (AST.Seq [AST.Char 'b']) (AST.Seq [AST.Char 'c']))) :=
  ⟨fun _ _ _ => rfl, rfl⟩

/-- Claim C2, counterexample: `parse "(a|b)c"` does not return
`Seq([Or(Char('a'), Char('b')), Char('c')])` — the operands of the `Or`
node are not the bare `Char` nodes. -/
theorem C2_counterexample :
    parse "(a|b)c" ≠
      Except.ok (AST.Seq [AST.Or (AST.Char 'a') (AST.Char 'b'), AST.Char 'c']) := by
  intro h
  have hval : parse "(a|b)c" =
      Except.ok (AST.Seq [AST.Or (AST.Seq [AST.Char 'a']) (AST.Seq [AST.Char 'b']),
        AST.Char 'c']) := rfl
  rw [hval] at h
  injection h with h1
  injection h1 with h2
  injection h2 with h3 h4
  injection h3 with h5 h6
  exact AST.noConfusion h5

/-- Claim C2, amended: `parse "(a|b)c"` succeeds with
`Seq([Or(Seq([Char('a')]), Seq([Char('b')])), Char('c')])` — the group's
alternation node followed by the literal, with each `Or` operand being the
alternative wrapped in a singleton `Seq`. -/
theorem C2_group_alternation_seq_operands :
    parse "(a|b)c" =
      Except.ok (AST.Seq [AST.Or (AST.Seq [AST.Char 'a']) (AST.Seq [AST.Char 'b']),
        AST.Char 'c']) := rfl

/-- Claim C3: every non-empty input of literal characters only (none of the
seven syntax characters) parses successfully, and flattening the returned
tree back to characters in left-to-right order reproduces the input. -/
theorem C3_literal_roundtrip (s : String) (hne : s.data ≠ [])
    (hlit : ∀ c ∈ s.data, isSyntaxChar c = false) :
    ∃ ast, parse s = Except.ok ast ∧ flattenChars ast = s.data := by
  refine ⟨AST.Seq (s.data.map AST.Char), ?_, ?_⟩
  · unfold parse parseChars
    rw [parseLoop_literal s.data hlit [] [] [] 0]
    have hl : (s.data.map AST.Char).isEmpty = false := by
      simp [List.isEmpty_iff, hne]
    simp [parseFinish, hl, fold_or]
  · simp [flattenChars, flattenList_map_char]

/-- Witness for claim C3 at the concrete input "xy". -/
theorem C3_literal_roundtrip_witness :
    "xy".data ≠ [] ∧ (∀ c ∈ "xy".data, isSyntaxChar c = false) ∧
    ∃ ast, parse "xy" = Except.ok ast ∧ flattenChars ast = "xy".data :=
  ⟨by decide, by decide, C3_literal_roundtrip "xy" (by decide) (by decide)⟩

/-- Claim C4: `parse_escape pos c` succeeds with `Char c` exactly when `c`
is one of the characters `\ ( ) | + * ?`, and otherwise fails with
`InvalidEscape(pos, c)`; `parse "\n"` (backslash then n) fails with
`InvalidEscape(1, 'n')` while `parse "\("` succeeds with the literal. -/
theorem C4_escape_rule :
    (∀ (pos : Nat) (c : Char),
      (parse_escape pos c = Except.ok (AST.Char c) ↔
        (c = '\\' ∨ c = '(' ∨ c = ')' ∨ c = '|' ∨ c = '+' ∨ c = '*' ∨ c = '?')) ∧
      (¬(c = '\\' ∨ c = '(' ∨ c = ')' ∨ c = '|' ∨ c = '+' ∨ c = '*' ∨ c = '?') →
        parse_escape pos c = Except.error (ParserError.InvalidEscape pos c))) ∧
    parse "\\n" = Except.error (ParserError.InvalidEscape 1 'n') ∧
    parse "\\(" = Except.ok (AST.Seq [AST.Char '(']) := by
  refine ⟨fun pos c => ⟨?_, ?_⟩, rfl, rfl⟩
  · unfold parse_escape
    split
    next hcond => simp [hcond]
    next hcond => simp [hcond]
  · intro hn
    simp [parse_escape, hn]

/-- Witness for claim C4 at the concrete position 5 and character n. -/
theorem C4_escape_rule_witness :
    parse_escape 5 'n' = Except.error (ParserError.InvalidEscape 5 'n') :=
  (C4_escape_rule.1 5 'n').2 (by decide)

/-- Claim C5: a quantifier character or an alternation bar scanned in
`Normal` mode while the current concatenation accumulator is empty makes
the parse fail with `NoPrev` at that offset; in particular `parse "*a"`
fails with `NoPrev(0)` and a level opening with a bare bar is rejected the
same way. -/
theorem C5_noprev_on_empty_accumulator :
    (∀ (ctx : ParseCtx) (i : Nat) (c : Char), ctx.state = ParseState.Char →
      (c = '+' ∨ c = '*' ∨ c = '?' ∨ c = '|') → ctx.seq = [] →
      parseStep ctx i c = Except.error (ParserError.NoPrev i)) ∧
    parse "*a" = Except.error (ParserError.NoPrev 0) ∧
    parse "|a" = Except.error (ParserError.NoPrev 0) ∧
    parse "(|a)" = Except.error (ParserError.NoPrev 1) := by
  refine ⟨?_, rfl, rfl, rfl⟩
  intro ctx i c hst hc hseq
  obtain ⟨seq, seq_or, stack, st⟩ := ctx
  dsimp only at hst hseq
  subst hst
  subst hseq
  rcases hc with rfl | rfl | rfl | rfl <;> rfl

/-- Witness for claim C5 at a concrete context and offset. -/
theorem C5_noprev_witness :
    parseStep ⟨[], [], [], ParseState.Char⟩ 7 '+' =
      Except.error (ParserError.NoPrev 7) :=
  C5_noprev_on_empty_accumulator.1 ⟨[], [], [], ParseState.Char⟩ 7 '+' rfl
    (Or.inl rfl) rfl

/-- Claim C6: a right parenthesis scanned with an empty context stack fails
with `InvalidRightParen` at that offset, and end of input with a non-empty
context stack fails with the offset-free `NoRightParen`; in particular
`parse "a)"` fails with `InvalidRightParen(1)` and `parse "(a"` fails with
`NoRightParen`. -/
theorem C6_paren_balance :
    (∀ (ctx : ParseCtx) (i : Nat), ctx.state = ParseState.Char → ctx.stack = [] →
      parseStep ctx i ')' = Except.error (ParserError.InvalidRightParen i)) ∧
    (∀ ctx : ParseCtx, ctx.stack ≠ [] →
      parseFinish ctx = Except.error ParserError.NoRightParen) ∧
    parse "a)" = Except.error (ParserError.InvalidRightParen 1) ∧
    parse "(a" = Except.error ParserError.NoRightParen := by
  refine ⟨?_, ?_, rfl, rfl⟩
  · intro ctx i hst hstk
    obtain ⟨seq, seq_or, stack, st⟩ := ctx
    dsimp only at hst hstk
    subst hst
    subst hstk
    rfl
  · intro ctx hstk
    obtain ⟨seq, seq_or, stack, st⟩ := ctx
    dsimp only at hstk
    cases stack with
    | nil => exact absurd rfl hstk
    | cons p rest => rfl

/-- Witness for claim C6 at a concrete context and offset. -/
theorem C6_paren_balance_witness :
    parseStep ⟨[], [], [], ParseState.Char⟩ 3 ')' =
      Except.error (ParserError.InvalidRightParen 3) :=
  C6_paren_balance.1 ⟨[], [], [], ParseState.Char⟩ 3 rfl rfl

/-- Claim C7: a pattern that reduces to no expression yields the `Empty`
error: both the empty input and "()" fail with `Empty`. -/
theorem C7_empty_pattern :
    parse "" = Except.error ParserError.Empty ∧
    parse "()" = Except.error ParserError.Empty :=
  ⟨rfl, rfl⟩

/-- Claim C8: a trailing bar whose left side is non-empty is legal:
`parse "a|"` succeeds and its result equals that of `parse "a"`. -/
theorem C8_trailing_bar_legal :
    parse "a|" = Except.ok (AST.Seq [AST.Char 'a']) ∧ parse "a|" = parse "a" :=
  ⟨rfl, rfl⟩

/-- Claim C9: the tree of every successful parse contains no `Seq` node
with an empty child list (an `Or` node is binary by the very shape of the
`AST` type), and a one-element alternatives list folds to its element
directly without an `Or` wrapper. -/
theorem C9_no_empty_seq :
    (∀ (cs : List Char) (ast : AST), parseChars cs = Except.ok ast →
      noEmptySeq ast = true) ∧
    (∀ a : AST, fold_or [a] = some a) := by
  refine ⟨?_, fun a => rfl⟩
  intro cs ast h
  unfold parseChars at h
  split at h
  next ctx hloop =>
    have hg : goodCtx ⟨[], [], [], ParseState.Char⟩ :=
      ⟨goodList_nil, goodList_nil, by intro p hp; simp at hp⟩
    exact good_parseFinish _ _ (good_parseLoop cs _ _ _ hg hloop) h
  next => simp at h

/-- Witness for claim C9 at the concrete input consisting of the single
character a. -/
theorem C9_no_empty_seq_witness :
    noEmptySeq (AST.Seq [AST.Char 'a']) = true :=
  C9_no_empty_seq.1 ['a'] (AST.Seq [AST.Char 'a']) rfl

/-- Claim C10: end of input in `Escape` mode raises no escape-related
error: the final fold ignores the scan mode entirely, `parse "a\"`
(a then backslash) succeeds with the same AST as `parse "a"`, and
`parse "\"` (a single backslash) fails with `Empty`. -/
theorem C10_dangling_backslash :
    (∀ ctx : ParseCtx, parseFinish { ctx with state := ParseState.Escape } =
      parseFinish { ctx with state := ParseState.Char }) ∧
    parse "a\\" = Except.ok (AST.Seq [AST.Char 'a']) ∧
    parse "a\\" = parse "a" ∧
    parse "\\" = Except.error ParserError.Empty :=
  ⟨fun _ => rfl, rfl, rfl, rfl⟩

end Regexp
